import Mathlib

/-!
Shallow embedding of the MusicSync room-synchronization server
(`src/server/index.js`).  The server keeps two global JS `Map`s —
`rooms : code → Room` and `users : socketId → Session` — plus the
socket.io room membership created by `socket.join`.  JS `Map`s are
modelled as association lists with insertion-order semantics
(`set` of an existing key overwrites in place, of a fresh key appends;
`delete` removes the entry).  Each socket.io handler becomes one arm of
a `step` function from a server state and an inbound `Event` to the new
state plus the list of emitted outbound events; `Math.random`-generated
room codes and `Date.now()` timestamps become explicit parameters of
the events.
-/

namespace MusicSync

/-- A participant profile as pushed onto `room.users` (object literal
`{ id, username, avatar, isTyping }` in the join-room handler). -/
structure User where
  id : String
  username : String
  avatar : String
  isTyping : Bool
deriving DecidableEq

/-- A session record as stored in the `users` map
(`{ ...user, roomCode }`). -/
structure Session where
  id : String
  username : String
  avatar : String
  isTyping : Bool
  roomCode : String
deriving DecidableEq

/-- A chat message (`{ id, username, avatar, text, timestamp }`);
`Date.now()` values and ISO timestamps are both modelled as the `Nat`
passed to the handler. -/
structure Message where
  id : Nat
  username : String
  avatar : String
  text : String
  timestamp : Nat
deriving DecidableEq

/-- A playlist entry as built by the add-song handler. -/
structure Song where
  id : Nat
  title : String
  artist : String
  duration : String
  addedBy : String
  url : String
deriving DecidableEq

/-- Room state (`{ code, users, messages, playlist, currentSong,
isPlaying, currentTime }`); `currentTime` is a JS number supplied by
clients, modelled as `Int`. -/
structure Room where
  code : String
  users : List User
  messages : List Message
  playlist : List Song
  currentSong : Option Song
  isPlaying : Bool
  currentTime : Int
deriving DecidableEq

/-- JS `Map.prototype.set`: overwrite in place if the key exists,
append otherwise. -/
def mapSet {α β : Type} [DecidableEq α] (k : α) (v : β) :
    List (α × β) → List (α × β)
  | [] => [(k, v)]
  | (k', v') :: rest =>
      if k' = k then (k, v) :: rest else (k', v') :: mapSet k v rest

/-- JS `Map.prototype.get` (`undefined` becomes `none`). -/
def mapGet {α β : Type} [DecidableEq α] (k : α) :
    List (α × β) → Option β
  | [] => none
  | (k', v') :: rest => if k' = k then some v' else mapGet k rest

/-- JS `Map.prototype.delete`. -/
def mapDelete {α β : Type} [DecidableEq α] (k : α) :
    List (α × β) → List (α × β)
  | [] => []
  | (k', v') :: rest =>
      if k' = k then rest else (k', v') :: mapDelete k rest

/-- The full server state: the `rooms` map, the `users` map, and the
socket.io channel membership (pairs `(socketId, roomCode)` created by
`socket.join` and removed when the socket disconnects). -/
structure ServerState where
  rooms : List (String × Room)
  users : List (String × Session)
  channels : List (String × String)
deriving DecidableEq

/-- The empty server (`rooms` and `users` start as `new Map()`). -/
def init : ServerState := ⟨[], [], []⟩

/-- JS 32-bit signed coercion, as applied by `<<` in the avatar hash. -/
def toInt32 (n : Int) : Int := (n + 2 ^ 31).emod (2 ^ 32) - 2 ^ 31

/-- The avatar palette of `getAvatarColor`. -/
def colors : List String :=
  ["#8B5CF6", "#EC4899", "#3B82F6", "#10B981", "#F59E0B",
   "#EF4444", "#6366F1", "#8B5A2B", "#059669", "#DC2626"]

/-- One iteration of the avatar hash:
`hash = charCode + ((hash << 5) - hash)`. -/
def hashStep (h : Int) (c : Nat) : Int := c + (toInt32 (h * 32) - h)

/-- `getAvatarColor`: fold the character codes and index the palette by
`Math.abs(hash) % colors.length`. -/
def getAvatarColor (username : String) : String :=
  let h := username.toList.foldl (fun h ch => hashStep h ch.toNat) 0
  (colors.getD (h.natAbs % colors.length) "")

/-- JS `v || 0` on a possibly-missing number (`data.currentTime || 0`):
`undefined` and `0` are falsy. -/
def orZero : Option Int → Int
  | none => 0
  | some v => if v = 0 then 0 else v

/-- JS `v || d` on a possibly-missing string (`data.artist || '...'`):
`undefined` and the empty string are falsy. -/
def orDefault : Option String → String → String
  | none, d => d
  | some s, d => if s = "" then d else s

/-- JS `data.id || Date.now()` in the add-song handler (`0` is falsy). -/
def idOrNow : Option Nat → Nat → Nat
  | none, now => now
  | some i, now => if i = 0 then now else i

/-- The payload of an `add-song` event; `id`, `artist` and `duration`
may be absent. -/
structure SongData where
  id : Option Nat
  title : String
  artist : Option String
  duration : Option String
  url : String
deriving DecidableEq

/-- Projection from a session back to the profile stored in
`room.users` (the join handler stores the same fields in both). -/
def toUser (s : Session) : User := ⟨s.id, s.username, s.avatar, s.isTyping⟩

/-- `room.users.filter(u => u.id !== socket.id)` in the disconnect
handler. -/
def removeUser (sid : String) : List User → List User
  | [] => []
  | u :: rest =>
      if u.id = sid then removeUser sid rest else u :: removeUser sid rest

/-- `room.users.find(u => u.id === socket.id)` followed by the in-place
`isTyping` mutation in the typing handler: only the first match is
updated. -/
def setTypingFirst (sid : String) (b : Bool) : List User → List User
  | [] => []
  | u :: rest =>
      if u.id = sid then { u with isTyping := b } :: rest
      else u :: setTypingFirst sid b rest

/-- `room.users.find(u => u.id === socket.id)`. -/
def findUser (sid : String) : List User → Option User
  | [] => none
  | u :: rest => if u.id = sid then some u else findUser sid rest

/-- Addressing of an outbound emission: `socket.emit` (one socket),
`socket.to(code).emit` (everyone in the channel except the sender),
`io.to(code).emit` (everyone in the channel). -/
inductive Recipient where
  | toSocket (id : String)
  | toRoomExcept (code : String) (sender : String)
  | toRoom (code : String)
deriving DecidableEq

/-- The outbound event payloads the server emits. -/
inductive OutEvent where
  | roomCreated (roomCode : String)
  | roomError (message : String)
  | roomJoined (room : Room)
  | userJoined (user : User)
  | usersUpdated (users : List User)
  | newMessage (message : Message)
  | userTyping (userId : String) (username : String) (isTyping : Bool)
  | playlistUpdated (playlist : List Song)
  | musicSync (isPlaying : Bool) (currentTime : Int) (timestamp : Nat)
  | songChanged (song : Option Song) (isPlaying : Bool) (currentTime : Int)
  | userLeft (userId : String)
deriving DecidableEq

/-- A batch of emissions produced by one handler, in emission order. -/
abbrev Output := List (Recipient × OutEvent)

/-- Whether socket `x` is a delivery target of a recipient descriptor,
resolved against the channel membership of a state. -/
def deliveredTo (st : ServerState) : Recipient → String → Prop
  | Recipient.toSocket i, x => x = i
  | Recipient.toRoomExcept c s, x => (x, c) ∈ st.channels ∧ x ≠ s
  | Recipient.toRoom c, x => (x, c) ∈ st.channels

/-- Inbound events.  `createRoom` carries the code produced by
`generateRoomCode()` (a `Math.random` draw, so an arbitrary string) and
each handler that reads `Date.now()` carries it as `now`. -/
inductive Event where
  | createRoom (sid : String) (code : String)
  | joinRoom (sid : String) (roomCode : String) (username : String) (now : Nat)
  | sendMessage (sid : String) (text : String) (now : Nat)
  | typing (sid : String) (isTyping : Bool)
  | addSong (sid : String) (d : SongData) (now : Nat)
  | musicControl (sid : String) (isPlaying : Bool) (currentTime : Option Int) (now : Nat)
  | selectSong (sid : String) (song : Song) (now : Nat)
  | disconnect (sid : String) (now : Nat)
deriving DecidableEq

/-- One handler invocation: the new server state and the emissions, in
source order.  Each arm transcribes the corresponding `socket.on`
handler of `src/server/index.js`; emitted payloads are captured at the
point of the `emit` call (socket.io serializes synchronously), so the
`room-joined` snapshot contains the new member but not the welcome
message, which is pushed after the emit. -/
def step (st : ServerState) : Event → ServerState × Output
  | Event.createRoom sid code =>
      let room : Room :=
        { code := code, users := [], messages := [], playlist := [],
          currentSong := none, isPlaying := false, currentTime := 0 }
      ({ st with rooms := mapSet code room st.rooms },
       [(Recipient.toSocket sid, OutEvent.roomCreated code)])
  | Event.joinRoom sid roomCode username now =>
      match mapGet roomCode st.rooms with
      | none => (st, [(Recipient.toSocket sid, OutEvent.roomError ("Room not found"))])
      | some room =>
          let user : User :=
            { id := sid, username := username,
              avatar := getAvatarColor username, isTyping := false }
          let sess : Session :=
            { id := sid, username := username, avatar := user.avatar,
              isTyping := false, roomCode := roomCode }
          let room1 := { room with users := room.users ++ [user] }
          let channels' :=
            if (sid, roomCode) ∈ st.channels then st.channels
            else st.channels ++ [(sid, roomCode)]
          let welcome : Message :=
            { id := now, username := "System", avatar := "#6366F1",
              text := "👋 " ++ username ++ " joined the room",
              timestamp := now }
          let room2 := { room1 with messages := room1.messages ++ [welcome] }
          ({ st with rooms := mapSet roomCode room2 st.rooms,
                     users := mapSet sid sess st.users,
                     channels := channels' },
           [(Recipient.toSocket sid, OutEvent.roomJoined room1),
            (Recipient.toRoomExcept roomCode sid, OutEvent.userJoined user),
            (Recipient.toRoom roomCode, OutEvent.usersUpdated room1.users),
            (Recipient.toRoom roomCode, OutEvent.newMessage welcome)])
  | Event.sendMessage sid text now =>
      match mapGet sid st.users with
      | none => (st, [])
      | some user =>
          let message : Message :=
            { id := now, username := user.username, avatar := user.avatar,
              text := text, timestamp := now }
          match mapGet user.roomCode st.rooms with
          | none => (st, [])
          | some room =>
              let room' := { room with messages := room.messages ++ [message] }
              ({ st with rooms := mapSet user.roomCode room' st.rooms },
               [(Recipient.toRoom user.roomCode, OutEvent.newMessage message)])
  | Event.typing sid b =>
      match mapGet sid st.users with
      | none => (st, [])
      | some user =>
          match mapGet user.roomCode st.rooms with
          | none => (st, [])
          | some room =>
              match findUser sid room.users with
              | none => (st, [])
              | some _ =>
                  let room' := { room with users := setTypingFirst sid b room.users }
                  ({ st with rooms := mapSet user.roomCode room' st.rooms },
                   [(Recipient.toRoomExcept user.roomCode sid,
                     OutEvent.userTyping sid user.username b)])
  | Event.addSong sid d now =>
      match mapGet sid st.users with
      | none => (st, [])
      | some user =>
          match mapGet user.roomCode st.rooms with
          | none => (st, [])
          | some room =>
              let song : Song :=
                { id := idOrNow d.id now, title := d.title,
                  artist := orDefault d.artist ("Unknown Artist"),
                  duration := orDefault d.duration ("0:00"),
                  addedBy := user.username, url := d.url }
              let room' := { room with playlist := room.playlist ++ [song] }
              ({ st with rooms := mapSet user.roomCode room' st.rooms },
               [(Recipient.toRoom user.roomCode,
                 OutEvent.playlistUpdated room'.playlist)])
  | Event.musicControl sid b t now =>
      match mapGet sid st.users with
      | none => (st, [])
      | some user =>
          match mapGet user.roomCode st.rooms with
          | none => (st, [])
          | some room =>
              let room' := { room with isPlaying := b, currentTime := orZero t }
              ({ st with rooms := mapSet user.roomCode room' st.rooms },
               [(Recipient.toRoomExcept user.roomCode sid,
                 OutEvent.musicSync room'.isPlaying room'.currentTime now)])
  | Event.selectSong sid s now =>
      match mapGet sid st.users with
      | none => (st, [])
      | some user =>
          match mapGet user.roomCode st.rooms with
          | none => (st, [])
          | some room =>
              let room' :=
                { room with currentSong := some s, isPlaying := false,
                            currentTime := 0 }
              let message : Message :=
                { id := now, username := "System", avatar := "#6366F1",
                  text := "🎵 " ++ user.username ++ " selected \"" ++ s.title
                            ++ "\" by " ++ s.artist,
                  timestamp := now }
              let room'' := { room' with messages := room'.messages ++ [message] }
              ({ st with rooms := mapSet user.roomCode room'' st.rooms },
               [(Recipient.toRoom user.roomCode,
                 OutEvent.songChanged room'.currentSong false 0),
                (Recipient.toRoom user.roomCode, OutEvent.newMessage message)])
  | Event.disconnect sid now =>
      let channels' := st.channels.filter (fun p => decide (p.1 ≠ sid))
      match mapGet sid st.users with
      | none => ({ st with channels := channels' }, [])
      | some user =>
          match mapGet user.roomCode st.rooms with
          | none =>
              ({ st with users := mapDelete sid st.users, channels := channels' }, [])
          | some room =>
              let room' := { room with users := removeUser sid room.users }
              let message : Message :=
                { id := now, username := "System", avatar := "#6366F1",
                  text := "👋 " ++ user.username ++ " left the room",
                  timestamp := now }
              let room'' := { room' with messages := room'.messages ++ [message] }
              let rooms1 := mapSet user.roomCode room'' st.rooms
              let rooms2 :=
                if room''.users = [] then mapDelete user.roomCode rooms1 else rooms1
              ({ st with rooms := rooms2, users := mapDelete sid st.users,
                         channels := channels' },
               [(Recipient.toRoomExcept user.roomCode sid, OutEvent.userLeft sid),
                (Recipient.toRoom user.roomCode, OutEvent.usersUpdated room'.users),
                (Recipient.toRoom user.roomCode, OutEvent.newMessage message)])

/-- The state after one handler (discarding emissions). -/
def stepSt (st : ServerState) (e : Event) : ServerState := (step st e).1

/-- The state after a sequence of inbound events. -/
def run (st : ServerState) (evs : List Event) : ServerState :=
  evs.foldl stepSt st

/-- The keys of an association list, in order. -/
def keys {α β : Type} (l : List (α × β)) : List α := l.map Prod.fst

/-- The projection of the session table onto one room code: the
profiles of exactly those sessions whose `roomCode` is `c`, in table
order. -/
def projUsers (c : String) : List (String × Session) → List User
  | [] => []
  | (_, s) :: rest =>
      if s.roomCode = c then toUser s :: projUsers c rest else projUsers c rest

/-- The spec's membership-projection invariant: every live room's
`users` list is exactly the projection of the session table onto its
code. -/
def membersMatch (st : ServerState) : Prop :=
  ∀ p ∈ st.rooms, p.2.users = projUsers p.1 st.users

/-- Well-formedness of the room registry: distinct keys, and each
room's `code` field equals its key. -/
def roomsOk (l : List (String × Room)) : Prop :=
  (keys l).Nodup ∧ ∀ p ∈ l, p.2.code = p.1

/-- Well-formedness of the session table: distinct keys, and each
session's `id` field equals its key. -/
def usersOk (l : List (String × Session)) : Prop :=
  (keys l).Nodup ∧ ∀ p ∈ l, p.2.id = p.1

/-- Every session points at a live room. -/
def sessionsLive (st : ServerState) : Prop :=
  ∀ p ∈ st.users, (mapGet p.2.roomCode st.rooms).isSome = true

/-- The combined reachable-state invariant used for the membership
claims. -/
def Inv (st : ServerState) : Prop :=
  roomsOk st.rooms ∧ usersOk st.users ∧ sessionsLive st ∧ membersMatch st

/-- Events that touch membership: create-room, join-room, disconnect. -/
def isMembershipEvent : Event → Bool
  | Event.createRoom _ _ => true
  | Event.joinRoom _ _ _ _ => true
  | Event.disconnect _ _ => true
  | _ => false

/-- Freshness side conditions of one event: a created code does not
collide with a live room, and a joining connection has no bound
session yet. -/
def okEvent (st : ServerState) : Event → Bool
  | Event.createRoom _ code => (mapGet code st.rooms).isNone
  | Event.joinRoom sid _ _ _ => (mapGet sid st.users).isNone
  | _ => true

/-- Freshness side conditions along a whole event sequence. -/
def okEvents : ServerState → List Event → Bool
  | _, [] => true
  | st, e :: rest => okEvent st e && okEvents (stepSt st e) rest

/-- A `music-control` event supplies a non-negative (or absent)
`currentTime`; every other event trivially qualifies. -/
def okNonneg : Event → Bool
  | Event.musicControl _ _ (some v) _ => decide (0 ≤ v)
  | _ => true

/-- Every `music-control` event in the list supplies a non-negative
(or absent) `currentTime`. -/
def nonnegInputs (evs : List Event) : Bool := evs.all okNonneg

/-- Every live room's playhead is non-negative. -/
def ntNonneg (st : ServerState) : Prop := ∀ p ∈ st.rooms, 0 ≤ p.2.currentTime

/-- The playback-relevant fields of a room. -/
def playback (r : Room) : Option Song × Bool × Int :=
  (r.currentSong, r.isPlaying, r.currentTime)

/-- The `room-joined` snapshots contained in an emission batch. -/
def joinedSnapshots (out : Output) : List Room :=
  out.filterMap (fun p =>
    match p.2 with
    | OutEvent.roomJoined r => some r
    | _ => none)

instance membersMatchDecidable (st : ServerState) : Decidable (membersMatch st) :=
  inferInstanceAs (Decidable (∀ p ∈ st.rooms, p.2.users = projUsers p.1 st.users))

instance ntNonnegDecidable (st : ServerState) : Decidable (ntNonneg st) :=
  inferInstanceAs (Decidable (∀ p ∈ st.rooms, 0 ≤ p.2.currentTime))

/-- Placeholder room used with `Option.getD` in concrete witnesses. -/
def dfltRoom : Room := ⟨"", [], [], [], none, false, 0⟩

/-- Placeholder session used with `Option.getD` in concrete witnesses. -/
def dfltSess : Session := ⟨"", "", "", false, ""⟩

/-- Concrete run: one room, one joined participant. -/
def evA : List Event :=
  [Event.createRoom ("a") ("R"), Event.joinRoom ("s1") ("R") ("Ann") 1]

/-- State after `evA`. -/
def stA : ServerState := run init evA

/-- The session of socket `s1` in `stA`. -/
def sessA : Session := (mapGet ("s1") stA.users).getD dfltSess

/-- The room `R` in `stA`. -/
def roomA : Room := (mapGet ("R") stA.rooms).getD dfltRoom

/-- Concrete run: one room with two joined participants. -/
def evAB : List Event :=
  [Event.createRoom ("a") ("R"), Event.joinRoom ("s1") ("R") ("Ann") 1,
   Event.joinRoom ("s2") ("R") ("Bo") 2]

/-- State after `evAB`. -/
def stAB : ServerState := run init evAB

/-- The session of socket `s1` in `stAB`. -/
def sessAB : Session := (mapGet ("s1") stAB.users).getD dfltSess

/-- The room `R` in `stAB`. -/
def roomAB : Room := (mapGet ("R") stAB.rooms).getD dfltRoom

/-- A sample song for witnesses. -/
def songX : Song := ⟨7, "Tune", "Artist", "3:10", "Ann", "u"⟩

/-- Counterexample run for the membership projection: the same socket
joins room `A` and then room `B` without disconnecting, so room `A`
keeps a member whose session now points at `B`. -/
def evDoubleJoin : List Event :=
  [Event.createRoom ("x") ("A"), Event.createRoom ("x") ("B"),
   Event.joinRoom ("s") ("A") ("ann") 1, Event.joinRoom ("s") ("B") ("ann") 2]

/-- Counterexample run for playhead non-negativity: a joined client
sends `music-control` with `currentTime = -5`. -/
def evNegTime : List Event :=
  evA ++ [Event.musicControl ("s1") true (some (-5)) 2]

/-- State after a bare create-room with code `AB12CD` (Scenario A). -/
def stFresh : ServerState := run init [Event.createRoom ("a") ("AB12CD")]

/-- The emissions of the first join into the fresh room (Scenario A). -/
def joinOutA : Output := (step stFresh (Event.joinRoom ("s") ("AB12CD") ("Ann") 5)).2

/-- Witness run for the membership projection: create, two joins, one
disconnect. -/
def evJoinLeave : List Event :=
  evAB ++ [Event.disconnect ("s1") 3]

/-- The fresh room created in `stFresh`. -/
def roomFresh : Room := (mapGet ("AB12CD") stFresh.rooms).getD dfltRoom

/-- Witness run with a well-behaved (non-negative) music-control. -/
def evNonneg : List Event :=
  evA ++ [Event.musicControl ("s1") true (some 3) 2]

/-- The room left at code `A` by the double-join counterexample run. -/
def cexRoomA : Room := (mapGet ("A") (run init evDoubleJoin).rooms).getD dfltRoom

section MapLemmas

variable {α β : Type} [DecidableEq α]

theorem mapGet_mapSet_self (k : α) (v : β) (l : List (α × β)) :
    mapGet k (mapSet k v l) = some v := by
  induction l with
  | nil => simp [mapSet, mapGet]
  | cons p rest ih =>
      obtain ⟨a, b⟩ := p
      by_cases ha : a = k
      · simp [mapSet, ha, mapGet]
      · simp [mapSet, ha, mapGet, ih]

theorem mapGet_mapSet_ne (k k' : α) (v : β) (l : List (α × β)) (h : k' ≠ k) :
    mapGet k' (mapSet k v l) = mapGet k' l := by
  induction l with
  | nil => simp [mapSet, mapGet, Ne.symm h]
  | cons p rest ih =>
      obtain ⟨a, b⟩ := p
      by_cases ha : a = k
      · subst ha
        simp [mapSet, mapGet, Ne.symm h]
      · simp only [mapSet, if_neg ha, mapGet]
        by_cases ha' : a = k'
        · simp [ha']
        · simp [ha', ih]

theorem keys_mapSet (k : α) (v : β) (l : List (α × β)) :
    keys (mapSet k v l) = if k ∈ keys l then keys l else keys l ++ [k] := by
  induction l with
  | nil => simp [mapSet, keys]
  | cons p rest ih =>
      obtain ⟨a, b⟩ := p
      by_cases ha : a = k
      · subst ha
        simp [mapSet, keys]
      · simp only [mapSet, if_neg ha, keys, List.map_cons] at ih ⊢
        by_cases hk : k ∈ List.map Prod.fst rest
        · simp [ih, hk, List.mem_cons, Ne.symm ha]
        · simp [ih, hk, List.mem_cons, Ne.symm ha]

theorem nodup_keys_mapSet (k : α) (v : β) (l : List (α × β))
    (h : (keys l).Nodup) : (keys (mapSet k v l)).Nodup := by
  rw [keys_mapSet]
  by_cases hk : k ∈ keys l
  · simpa [hk] using h
  · rw [if_neg hk]
    rw [List.nodup_append]
    refine ⟨h, List.nodup_singleton k, ?_⟩
    intro a ha hb
    rw [List.mem_singleton] at hb
    subst hb
    exact hk ha

theorem mapSet_of_fresh (k : α) (v : β) (l : List (α × β))
    (h : mapGet k l = none) : mapSet k v l = l ++ [(k, v)] := by
  induction l with
  | nil => simp [mapSet]
  | cons p rest ih =>
      obtain ⟨a, b⟩ := p
      simp only [mapGet] at h
      by_cases ha : a = k
      · simp [ha] at h
      · simp only [if_neg ha] at h
        simp [mapSet, ha, ih h]

theorem mapGet_eq_none_iff (k : α) (l : List (α × β)) :
    mapGet k l = none ↔ ∀ p ∈ l, p.1 ≠ k := by
  induction l with
  | nil => simp [mapGet]
  | cons p rest ih =>
      obtain ⟨a, b⟩ := p
      by_cases ha : a = k
      · subst ha
        simp [mapGet]
      · simp [mapGet, ha, ih]

theorem mem_of_mapGet_eq_some {k : α} {v : β} {l : List (α × β)}
    (h : mapGet k l = some v) : (k, v) ∈ l := by
  induction l with
  | nil => simp [mapGet] at h
  | cons p rest ih =>
      obtain ⟨a, b⟩ := p
      by_cases ha : a = k
      · subst ha
        simp [mapGet] at h
        subst h
        exact List.mem_cons_self _ _
      · simp only [mapGet, if_neg ha] at h
        exact List.mem_cons_of_mem _ (ih h)

theorem mapGet_isSome_of_mem {k : α} {v : β} {l : List (α × β)}
    (h : (k, v) ∈ l) : (mapGet k l).isSome = true := by
  induction l with
  | nil => simp at h
  | cons p rest ih =>
      obtain ⟨a, b⟩ := p
      by_cases ha : a = k
      · simp [mapGet, ha]
      · simp only [mapGet, if_neg ha]
        apply ih
        rcases List.mem_cons.mp h with h1 | h2
        · exact absurd (congrArg Prod.fst h1).symm ha
        · exact h2

theorem mem_mapSet_imp {k : α} {v : β} {p : α × β} {l : List (α × β)}
    (h : p ∈ mapSet k v l) : p = (k, v) ∨ p ∈ l := by
  induction l with
  | nil => simpa [mapSet] using h
  | cons q rest ih =>
      obtain ⟨a, b⟩ := q
      by_cases ha : a = k
      · subst ha
        simp [mapSet] at h
        rcases h with h1 | h2
        · exact Or.inl h1
        · exact Or.inr (List.mem_cons_of_mem _ h2)
      · simp only [mapSet, if_neg ha, List.mem_cons] at h
        rcases h with h1 | h2
        · exact Or.inr (h1 ▸ List.mem_cons_self _ _)
        · rcases ih h2 with h3 | h4
          · exact Or.inl h3
          · exact Or.inr (List.mem_cons_of_mem _ h4)

theorem mapDelete_sublist (k : α) (l : List (α × β)) :
    List.Sublist (mapDelete k l) l := by
  induction l with
  | nil => simp [mapDelete]
  | cons q rest ih =>
      obtain ⟨a, b⟩ := q
      by_cases ha : a = k
      · simp only [mapDelete, if_pos ha]
        exact List.Sublist.cons _ (List.Sublist.refl _)
      · simp only [mapDelete, if_neg ha]
        exact List.Sublist.cons₂ _ ih

theorem nodup_keys_mapDelete {k : α} {l : List (α × β)}
    (hnd : (keys l).Nodup) : (keys (mapDelete k l)).Nodup := by
  simp only [keys] at hnd ⊢
  exact hnd.sublist ((mapDelete_sublist k l).map Prod.fst)

theorem mem_mapDelete_imp {k : α} {p : α × β} {l : List (α × β)}
    (hnd : (keys l).Nodup) (h : p ∈ mapDelete k l) : p ∈ l ∧ p.1 ≠ k := by
  induction l with
  | nil => simp [mapDelete] at h
  | cons q rest ih =>
      obtain ⟨a, b⟩ := q
      simp only [keys, List.map_cons, List.nodup_cons] at hnd
      by_cases ha : a = k
      · subst ha
        simp only [mapDelete, if_pos rfl] at h
        refine ⟨List.mem_cons_of_mem _ h, ?_⟩
        intro hk
        exact hnd.1 (hk ▸ List.mem_map_of_mem Prod.fst h)
      · simp only [mapDelete, if_neg ha, List.mem_cons] at h
        rcases h with h1 | h2
        · refine ⟨h1 ▸ List.mem_cons_self _ _, ?_⟩
          rw [h1]
          exact ha
        · obtain ⟨hm, hne⟩ := ih hnd.2 h2
          exact ⟨List.mem_cons_of_mem _ hm, hne⟩

theorem mapGet_mapDelete_ne (k k' : α) (l : List (α × β)) (h : k' ≠ k) :
    mapGet k' (mapDelete k l) = mapGet k' l := by
  induction l with
  | nil => simp [mapDelete]
  | cons q rest ih =>
      obtain ⟨a, b⟩ := q
      by_cases ha : a = k
      · subst ha
        simp [mapDelete, mapGet, Ne.symm h]
      · simp only [mapDelete, if_neg ha, mapGet]
        by_cases ha' : a = k'
        · simp [ha']
        · simp [ha', ih]

theorem mapGet_mapDelete_self (k : α) (l : List (α × β))
    (hnd : (keys l).Nodup) : mapGet k (mapDelete k l) = none := by
  induction l with
  | nil => simp [mapDelete, mapGet]
  | cons q rest ih =>
      obtain ⟨a, b⟩ := q
      simp only [keys, List.map_cons, List.nodup_cons] at hnd
      by_cases ha : a = k
      · subst ha
        simp only [mapDelete, if_pos rfl]
        rw [mapGet_eq_none_iff]
        intro p hp hpk
        exact hnd.1 (hpk ▸ List.mem_map_of_mem Prod.fst hp)
      · simp only [mapDelete, if_neg ha, mapGet, if_neg ha]
        exact ih hnd.2

theorem mapGet_of_mem_nodup {p : α × β} {l : List (α × β)}
    (hnd : (keys l).Nodup) (h : p ∈ l) : mapGet p.1 l = some p.2 := by
  induction l with
  | nil => simp at h
  | cons q rest ih =>
      obtain ⟨a, b⟩ := q
      simp only [keys, List.map_cons, List.nodup_cons] at hnd
      rcases List.mem_cons.mp h with h1 | h2
      · rw [h1]
        simp [mapGet]
      · by_cases hpa : a = p.1
        · exfalso
          apply hnd.1
          rw [hpa]
          exact List.mem_map_of_mem Prod.fst h2
        · simp only [mapGet, if_neg hpa]
          exact ih hnd.2 h2

theorem mem_mapSet_strong {k : α} {v : β} {p : α × β} {l : List (α × β)}
    (hnd : (keys l).Nodup) (h : p ∈ mapSet k v l) :
    p = (k, v) ∨ (p ∈ l ∧ p.1 ≠ k) := by
  rcases mem_mapSet_imp h with he | hm
  · exact Or.inl he
  · by_cases hk : p.1 = k
    · left
      have hg := mapGet_of_mem_nodup (nodup_keys_mapSet k v l hnd) h
      rw [hk, mapGet_mapSet_self] at hg
      have hv : p.2 = v := by
        injection hg.symm
      calc p = (p.1, p.2) := rfl
        _ = (k, v) := by rw [hk, hv]
    · exact Or.inr ⟨hm, hk⟩

theorem not_mem_keys_of_mapGet_eq_none {k : α} {l : List (α × β)}
    (h : mapGet k l = none) : k ∉ keys l := by
  intro hk
  obtain ⟨p, hp, hpk⟩ := List.mem_map.mp hk
  exact ((mapGet_eq_none_iff k l).mp h p hp) hpk

end MapLemmas

theorem projUsers_append (c : String) (l₁ l₂ : List (String × Session)) :
    projUsers c (l₁ ++ l₂) = projUsers c l₁ ++ projUsers c l₂ := by
  induction l₁ with
  | nil => simp [projUsers]
  | cons q rest ih =>
      obtain ⟨a, s⟩ := q
      by_cases hs : s.roomCode = c
      · simp [projUsers, hs, ih]
      · simp [projUsers, hs, ih]

theorem mem_projUsers {u : User} {c : String} {l : List (String × Session)} :
    u ∈ projUsers c l ↔ ∃ p, p ∈ l ∧ p.2.roomCode = c ∧ u = toUser p.2 := by
  induction l with
  | nil => simp [projUsers]
  | cons q rest ih =>
      obtain ⟨a, s⟩ := q
      by_cases hs : s.roomCode = c
      · simp only [projUsers, if_pos hs]
        rw [List.mem_cons, ih]
        constructor
        · rintro (rfl | ⟨p, hp, hpc, rfl⟩)
          · exact ⟨(a, s), List.mem_cons_self _ _, hs, rfl⟩
          · exact ⟨p, List.mem_cons_of_mem _ hp, hpc, rfl⟩
        · rintro ⟨p, hp, hpc, rfl⟩
          rcases List.mem_cons.mp hp with h1 | h2
          · rw [h1]
            exact Or.inl rfl
          · exact Or.inr ⟨p, h2, hpc, rfl⟩
      · simp only [projUsers, if_neg hs]
        rw [ih]
        constructor
        · rintro ⟨p, hp, hpc, rfl⟩
          exact ⟨p, List.mem_cons_of_mem _ hp, hpc, rfl⟩
        · rintro ⟨p, hp, hpc, rfl⟩
          rcases List.mem_cons.mp hp with h1 | h2
          · exact absurd (by rw [h1] at hpc; exact hpc) hs
          · exact ⟨p, h2, hpc, rfl⟩

theorem removeUser_of_forall_ne {sid : String} {l : List User}
    (h : ∀ u ∈ l, u.id ≠ sid) : removeUser sid l = l := by
  induction l with
  | nil => rfl
  | cons u rest ih =>
      simp only [removeUser, if_neg (h u (List.mem_cons_self u rest))]
      rw [ih (fun v hv => h v (List.mem_cons_of_mem _ hv))]

theorem removeUser_eq_nil_iff {sid : String} {l : List User} :
    removeUser sid l = [] ↔ ∀ u ∈ l, u.id = sid := by
  induction l with
  | nil => simp [removeUser]
  | cons u rest ih =>
      by_cases h : u.id = sid
      · simp [removeUser, h, ih]
      · simp only [removeUser, if_neg h]
        constructor
        · intro hx
          exact absurd hx (List.cons_ne_nil _ _)
        · intro hall
          exact absurd (hall u (List.mem_cons_self _ _)) h

theorem projUsers_mapDelete (c sid : String) (l : List (String × Session))
    (hnd : (keys l).Nodup) (hid : ∀ p ∈ l, p.2.id = p.1) :
    projUsers c (mapDelete sid l) = removeUser sid (projUsers c l) := by
  induction l with
  | nil => simp [mapDelete, projUsers, removeUser]
  | cons q rest ih =>
      obtain ⟨a, s⟩ := q
      have hsa : s.id = a := hid (a, s) (List.mem_cons_self _ _)
      simp only [keys, List.map_cons, List.nodup_cons] at hnd
      have hidr : ∀ p ∈ rest, p.2.id = p.1 :=
        fun p hp => hid p (List.mem_cons_of_mem _ hp)
      have hrest : ∀ u ∈ projUsers c rest, u.id ≠ a := by
        intro u hu hua
        obtain ⟨p, hp, hpc, rfl⟩ := mem_projUsers.mp hu
        have hpa : p.1 = a := by
          rw [← hidr p hp]
          simpa [toUser] using hua
        exact hnd.1 (hpa ▸ List.mem_map_of_mem Prod.fst hp)
      by_cases ha : a = sid
      · subst ha
        simp only [mapDelete, if_pos]
        by_cases hs : s.roomCode = c
        · simp only [projUsers, if_pos hs, removeUser,
            if_pos (show (toUser s).id = a from hsa)]
          rw [removeUser_of_forall_ne hrest]
        · simp only [projUsers, if_neg hs]
          rw [removeUser_of_forall_ne hrest]
      · simp only [mapDelete, if_neg ha]
        by_cases hs : s.roomCode = c
        · simp only [projUsers, if_pos hs, removeUser,
            if_neg (show ¬ (toUser s).id = sid from by
              simpa [toUser, hsa] using ha)]
          rw [ih hnd.2 hidr]
        · simp only [projUsers, if_neg hs]
          exact ih hnd.2 hidr

theorem projUsers_single (c k : String) (s : Session) :
    projUsers c [(k, s)] = if s.roomCode = c then [toUser s] else [] := by
  by_cases hs : s.roomCode = c
  · simp [projUsers, hs]
  · simp [projUsers, hs]

theorem projUsers_eq_nil (c : String) (l : List (String × Session))
    (h : ∀ p ∈ l, p.2.roomCode ≠ c) : projUsers c l = [] := by
  induction l with
  | nil => rfl
  | cons q rest ih =>
      obtain ⟨a, s⟩ := q
      simp only [projUsers, if_neg (h (a, s) (List.mem_cons_self _ _))]
      exact ih (fun p hp => h p (List.mem_cons_of_mem _ hp))

theorem projUsers_delete_of_ne (c sid : String) (l : List (String × Session))
    (sess : Session) (hnd : (keys l).Nodup) (hid : ∀ p ∈ l, p.2.id = p.1)
    (hget : mapGet sid l = some sess) (hne : sess.roomCode ≠ c) :
    projUsers c (mapDelete sid l) = projUsers c l := by
  rw [projUsers_mapDelete c sid l hnd hid]
  apply removeUser_of_forall_ne
  intro u hu hua
  obtain ⟨p, hp, hpc, rfl⟩ := mem_projUsers.mp hu
  have hp1 : p.1 = sid := by
    rw [← hid p hp]
    simpa [toUser] using hua
  have hgp : mapGet sid l = some p.2 := by
    rw [← hp1]
    exact mapGet_of_mem_nodup hnd hp
  rw [hget] at hgp
  have hsp : sess = p.2 := by injection hgp
  apply hne
  rw [hsp]
  exact hpc

theorem roomsOk_mapSet {l : List (String × Room)} {k : String} {v : Room}
    (h : roomsOk l) (hv : v.code = k) : roomsOk (mapSet k v l) := by
  refine ⟨nodup_keys_mapSet k v l h.1, ?_⟩
  intro p hp
  rcases mem_mapSet_imp hp with he | hm
  · rw [he]
    exact hv
  · exact h.2 p hm

theorem roomsOk_mapDelete {l : List (String × Room)} {k : String}
    (h : roomsOk l) : roomsOk (mapDelete k l) :=
  ⟨nodup_keys_mapDelete h.1,
   fun p hp => h.2 p ((mapDelete_sublist k l).subset hp)⟩

theorem roomsOk_step (st : ServerState) (e : Event) (h : roomsOk st.rooms) :
    roomsOk (stepSt st e).rooms := by
  cases e with
  | createRoom sid code =>
      simp only [stepSt, step]
      exact roomsOk_mapSet h rfl
  | joinRoom sid roomCode username now =>
      cases hr : mapGet roomCode st.rooms with
      | none => simp only [stepSt, step, hr]; exact h
      | some room =>
          simp only [stepSt, step, hr]
          apply roomsOk_mapSet h
          exact h.2 (roomCode, room) (mem_of_mapGet_eq_some hr)
  | sendMessage sid text now =>
      cases hu : mapGet sid st.users with
      | none => simp only [stepSt, step, hu]; exact h
      | some user =>
          cases hr : mapGet user.roomCode st.rooms with
          | none => simp only [stepSt, step, hu, hr]; exact h
          | some room =>
              simp only [stepSt, step, hu, hr]
              apply roomsOk_mapSet h
              exact h.2 (user.roomCode, room) (mem_of_mapGet_eq_some hr)
  | typing sid b =>
      cases hu : mapGet sid st.users with
      | none => simp only [stepSt, step, hu]; exact h
      | some user =>
          cases hr : mapGet user.roomCode st.rooms with
          | none => simp only [stepSt, step, hu, hr]; exact h
          | some room =>
              cases hf : findUser sid room.users with
              | none => simp only [stepSt, step, hu, hr, hf]; exact h
              | some u =>
                  simp only [stepSt, step, hu, hr, hf]
                  apply roomsOk_mapSet h
                  exact h.2 (user.roomCode, room) (mem_of_mapGet_eq_some hr)
  | addSong sid d now =>
      cases hu : mapGet sid st.users with
      | none => simp only [stepSt, step, hu]; exact h
      | some user =>
          cases hr : mapGet user.roomCode st.rooms with
          | none => simp only [stepSt, step, hu, hr]; exact h
          | some room =>
              simp only [stepSt, step, hu, hr]
              apply roomsOk_mapSet h
              exact h.2 (user.roomCode, room) (mem_of_mapGet_eq_some hr)
  | musicControl sid b t now =>
      cases hu : mapGet sid st.users with
      | none => simp only [stepSt, step, hu]; exact h
      | some user =>
          cases hr : mapGet user.roomCode st.rooms with
          | none => simp only [stepSt, step, hu, hr]; exact h
          | some room =>
              simp only [stepSt, step, hu, hr]
              apply roomsOk_mapSet h
              exact h.2 (user.roomCode, room) (mem_of_mapGet_eq_some hr)
  | selectSong sid s now =>
      cases hu : mapGet sid st.users with
      | none => simp only [stepSt, step, hu]; exact h
      | some user =>
          cases hr : mapGet user.roomCode st.rooms with
          | none => simp only [stepSt, step, hu, hr]; exact h
          | some room =>
              simp only [stepSt, step, hu, hr]
              apply roomsOk_mapSet h
              exact h.2 (user.roomCode, room) (mem_of_mapGet_eq_some hr)
  | disconnect sid now =>
      cases hu : mapGet sid st.users with
      | none => simp only [stepSt, step, hu]; exact h
      | some user =>
          cases hr : mapGet user.roomCode st.rooms with
          | none => simp only [stepSt, step, hu, hr]; exact h
          | some room =>
              have hcode : room.code = user.roomCode :=
                h.2 (user.roomCode, room) (mem_of_mapGet_eq_some hr)
              simp only [stepSt, step, hu, hr]
              by_cases hemp : removeUser sid room.users = []
              · rw [if_pos hemp]
                exact roomsOk_mapDelete (roomsOk_mapSet h hcode)
              · rw [if_neg hemp]
                exact roomsOk_mapSet h hcode

theorem roomsOk_run (st : ServerState) (evs : List Event)
    (h : roomsOk st.rooms) : roomsOk (run st evs).rooms := by
  induction evs generalizing st with
  | nil => exact h
  | cons e rest ih => exact ih (stepSt st e) (roomsOk_step st e h)

theorem inv_init : Inv init := by
  refine ⟨⟨List.nodup_nil, ?_⟩, ⟨List.nodup_nil, ?_⟩, ?_, ?_⟩ <;>
    (intro p hp; exact absurd hp (List.not_mem_nil p))

theorem inv_create (st : ServerState) (sid code : String)
    (hfresh : mapGet code st.rooms = none) (h : Inv st) :
    Inv (stepSt st (Event.createRoom sid code)) := by
  obtain ⟨hR, hU, hL, hM⟩ := h
  simp only [stepSt, step]
  refine ⟨roomsOk_mapSet hR rfl, hU, ?_, ?_⟩
  · intro p hp
    by_cases hc : p.2.roomCode = code
    · rw [hc, mapGet_mapSet_self]
      rfl
    · rw [mapGet_mapSet_ne _ _ _ _ hc]
      exact hL p hp
  · intro p hp
    rcases mem_mapSet_strong hR.1 hp with he | ⟨hm, _⟩
    · rw [he]
      symm
      apply projUsers_eq_nil
      intro q hq hqc
      have hsome := hL q hq
      rw [hqc, hfresh] at hsome
      simp at hsome
    · exact hM p hm

theorem inv_join (st : ServerState) (sid roomCode username : String) (now : Nat)
    (hfreshU : mapGet sid st.users = none) (h : Inv st) :
    Inv (stepSt st (Event.joinRoom sid roomCode username now)) := by
  obtain ⟨hR, hU, hL, hM⟩ := h
  cases hr : mapGet roomCode st.rooms with
  | none =>
      simp only [stepSt, step, hr]
      exact ⟨hR, hU, hL, hM⟩
  | some room =>
      simp only [stepSt, step, hr]
      refine ⟨?_, ?_, ?_, ?_⟩
      · apply roomsOk_mapSet hR
        exact hR.2 (roomCode, room) (mem_of_mapGet_eq_some hr)
      · rw [mapSet_of_fresh _ _ _ hfreshU]
        constructor
        · simp only [keys, List.map_append, List.map_cons, List.map_nil]
          rw [List.nodup_append]
          refine ⟨hU.1, List.nodup_singleton _, ?_⟩
          intro a ha hb
          rw [List.mem_singleton] at hb
          subst hb
          exact not_mem_keys_of_mapGet_eq_none hfreshU ha
        · intro p hp
          rcases List.mem_append.mp hp with h1 | h2
          · exact hU.2 p h1
          · rw [List.mem_singleton] at h2
            rw [h2]
      · intro p hp
        rcases mem_mapSet_imp hp with he | hm
        · rw [he]
          simp only [mapGet_mapSet_self, Option.isSome_some]
        · by_cases hc : p.2.roomCode = roomCode
          · rw [hc, mapGet_mapSet_self]
            rfl
          · rw [mapGet_mapSet_ne _ _ _ _ hc]
            exact hL p hm
      · intro p hp
        have hRu : room.users = projUsers roomCode st.users :=
          hM (roomCode, room) (mem_of_mapGet_eq_some hr)
        rcases mem_mapSet_strong hR.1 hp with he | ⟨hm, hne⟩
        · rw [he, mapSet_of_fresh _ _ _ hfreshU, projUsers_append, projUsers_single,
            if_pos rfl, ← hRu]
          rfl
        · have hMp := hM p hm
          rw [mapSet_of_fresh _ _ _ hfreshU, projUsers_append, projUsers_single,
            if_neg (fun hh => hne hh.symm), List.append_nil]
          exact hMp

theorem inv_disconnect (st : ServerState) (sid : String) (now : Nat)
    (h : Inv st) : Inv (stepSt st (Event.disconnect sid now)) := by
  obtain ⟨hR, hU, hL, hM⟩ := h
  cases hu : mapGet sid st.users with
  | none =>
      simp only [stepSt, step, hu]
      exact ⟨hR, hU, hL, hM⟩
  | some user =>
      cases hr : mapGet user.roomCode st.rooms with
      | none =>
          simp only [stepSt, step, hu, hr]
          refine ⟨hR, ?_, ?_, ?_⟩
          · exact ⟨nodup_keys_mapDelete hU.1,
              fun p hp => hU.2 p ((mapDelete_sublist _ _).subset hp)⟩
          · intro p hp
            exact hL p ((mapDelete_sublist _ _).subset hp)
          · intro p hp
            have hp1r : p.1 ≠ user.roomCode := by
              intro hcontra
              have hsome := mapGet_isSome_of_mem (show (p.1, p.2) ∈ st.rooms from hp)
              rw [hcontra, hr] at hsome
              simp at hsome
            rw [projUsers_delete_of_ne p.1 sid st.users user hU.1 hU.2 hu
              (fun hh => hp1r hh.symm)]
            exact hM p hp
      | some room =>
          have hcode : room.code = user.roomCode :=
            hR.2 (user.roomCode, room) (mem_of_mapGet_eq_some hr)
          have hRu : room.users = projUsers user.roomCode st.users :=
            hM (user.roomCode, room) (mem_of_mapGet_eq_some hr)
          have husersNe : ∀ c, c ≠ user.roomCode →
              projUsers c (mapDelete sid st.users) = projUsers c st.users := by
            intro c hc
            exact projUsers_delete_of_ne c sid st.users user hU.1 hU.2 hu
              (fun hh => hc hh.symm)
          have hproj : projUsers user.roomCode (mapDelete sid st.users)
              = removeUser sid room.users := by
            rw [projUsers_mapDelete _ _ _ hU.1 hU.2, ← hRu]
          simp only [stepSt, step, hu, hr]
          by_cases hemp : removeUser sid room.users = []
          · rw [if_pos hemp]
            refine ⟨?_, ?_, ?_, ?_⟩
            · apply roomsOk_mapDelete
              apply roomsOk_mapSet hR
              exact hcode
            · exact ⟨nodup_keys_mapDelete hU.1,
                fun p hp => hU.2 p ((mapDelete_sublist _ _).subset hp)⟩
            · intro p hp
              obtain ⟨hpmem, hpne⟩ := mem_mapDelete_imp hU.1 hp
              by_cases hc : p.2.roomCode = user.roomCode
              · exfalso
                have hin : toUser p.2 ∈ projUsers user.roomCode st.users :=
                  mem_projUsers.mpr ⟨p, hpmem, hc, rfl⟩
                rw [← hRu] at hin
                have hid : (toUser p.2).id = sid :=
                  removeUser_eq_nil_iff.mp hemp _ hin
                apply hpne
                rw [← hU.2 p hpmem]
                simpa [toUser] using hid
              · rw [mapGet_mapDelete_ne _ _ _ hc, mapGet_mapSet_ne _ _ _ _ hc]
                exact hL p hpmem
            · intro p hp
              obtain ⟨hpm, hpne⟩ := mem_mapDelete_imp (nodup_keys_mapSet _ _ _ hR.1) hp
              rcases mem_mapSet_strong hR.1 hpm with he | ⟨hm2, hne2⟩
              · exfalso
                apply hpne
                rw [he]
              · rw [husersNe p.1 hne2]
                exact hM p hm2
          · rw [if_neg hemp]
            refine ⟨?_, ?_, ?_, ?_⟩
            · apply roomsOk_mapSet hR
              exact hcode
            · exact ⟨nodup_keys_mapDelete hU.1,
                fun p hp => hU.2 p ((mapDelete_sublist _ _).subset hp)⟩
            · intro p hp
              obtain ⟨hpmem, hpne⟩ := mem_mapDelete_imp hU.1 hp
              by_cases hc : p.2.roomCode = user.roomCode
              · rw [hc, mapGet_mapSet_self]
                rfl
              · rw [mapGet_mapSet_ne _ _ _ _ hc]
                exact hL p hpmem
            · intro p hp
              rcases mem_mapSet_strong hR.1 hp with he | ⟨hm2, hne2⟩
              · rw [he]
                exact hproj.symm
              · rw [husersNe p.1 hne2]
                exact hM p hm2

theorem inv_step (st : ServerState) (e : Event)
    (hmem : isMembershipEvent e = true) (hok : okEvent st e = true)
    (h : Inv st) : Inv (stepSt st e) := by
  cases e with
  | createRoom sid code =>
      apply inv_create st sid code ?_ h
      simpa [okEvent, Option.isNone_iff_eq_none] using hok
  | joinRoom sid roomCode username now =>
      apply inv_join st sid roomCode username now ?_ h
      simpa [okEvent, Option.isNone_iff_eq_none] using hok
  | disconnect sid now => exact inv_disconnect st sid now h
  | sendMessage sid text now => simp [isMembershipEvent] at hmem
  | typing sid b => simp [isMembershipEvent] at hmem
  | addSong sid d now => simp [isMembershipEvent] at hmem
  | musicControl sid b t now => simp [isMembershipEvent] at hmem
  | selectSong sid s now => simp [isMembershipEvent] at hmem

theorem inv_run (st : ServerState) (evs : List Event)
    (hmem : ∀ e ∈ evs, isMembershipEvent e = true)
    (hok : okEvents st evs = true) (h : Inv st) : Inv (run st evs) := by
  induction evs generalizing st with
  | nil => exact h
  | cons e rest ih =>
      simp only [okEvents, Bool.and_eq_true] at hok
      exact ih (stepSt st e)
        (fun e' he' => hmem e' (List.mem_cons_of_mem _ he'))
        hok.2
        (inv_step st e (hmem e (List.mem_cons_self _ _)) hok.1 h)

theorem orZero_some (t : Int) : orZero (some t) = t := by
  by_cases ht : t = 0
  · simp [orZero, ht]
  · simp [orZero, ht]

theorem ntNonneg_step (st : ServerState) (e : Event) (h : ntNonneg st)
    (he : okNonneg e = true) : ntNonneg (stepSt st e) := by
  cases e with
  | createRoom sid code =>
      simp only [stepSt, step]
      intro p hp
      rcases mem_mapSet_imp hp with hx | hm
      · rw [hx]
      · exact h p hm
  | joinRoom sid roomCode username now =>
      cases hr : mapGet roomCode st.rooms with
      | none => simp only [stepSt, step, hr]; exact h
      | some room =>
          simp only [stepSt, step, hr]
          intro p hp
          rcases mem_mapSet_imp hp with hx | hm
          · rw [hx]
            exact h (roomCode, room) (mem_of_mapGet_eq_some hr)
          · exact h p hm
  | sendMessage sid text now =>
      cases hu : mapGet sid st.users with
      | none => simp only [stepSt, step, hu]; exact h
      | some user =>
          cases hr : mapGet user.roomCode st.rooms with
          | none => simp only [stepSt, step, hu, hr]; exact h
          | some room =>
              simp only [stepSt, step, hu, hr]
              intro p hp
              rcases mem_mapSet_imp hp with hx | hm
              · rw [hx]
                exact h (user.roomCode, room) (mem_of_mapGet_eq_some hr)
              · exact h p hm
  | typing sid b =>
      cases hu : mapGet sid st.users with
      | none => simp only [stepSt, step, hu]; exact h
      | some user =>
          cases hr : mapGet user.roomCode st.rooms with
          | none => simp only [stepSt, step, hu, hr]; exact h
          | some room =>
              cases hf : findUser sid room.users with
              | none => simp only [stepSt, step, hu, hr, hf]; exact h
              | some u =>
                  simp only [stepSt, step, hu, hr, hf]
                  intro p hp
                  rcases mem_mapSet_imp hp with hx | hm
                  · rw [hx]
                    exact h (user.roomCode, room) (mem_of_mapGet_eq_some hr)
                  · exact h p hm
  | addSong sid d now =>
      cases hu : mapGet sid st.users with
      | none => simp only [stepSt, step, hu]; exact h
      | some user =>
          cases hr : mapGet user.roomCode st.rooms with
          | none => simp only [stepSt, step, hu, hr]; exact h
          | some room =>
              simp only [stepSt, step, hu, hr]
              intro p hp
              rcases mem_mapSet_imp hp with hx | hm
              · rw [hx]
                exact h (user.roomCode, room) (mem_of_mapGet_eq_some hr)
              · exact h p hm
  | musicControl sid b t now =>
      cases hu : mapGet sid st.users with
      | none => simp only [stepSt, step, hu]; exact h
      | some user =>
          cases hr : mapGet user.roomCode st.rooms with
          | none => simp only [stepSt, step, hu, hr]; exact h
          | some room =>
              simp only [stepSt, step, hu, hr]
              intro p hp
              rcases mem_mapSet_imp hp with hx | hm
              · rw [hx]
                cases t with
                | none => exact le_refl 0
                | some v =>
                    simp only [okNonneg, decide_eq_true_eq] at he
                    rw [show orZero (some v) = v from orZero_some v]
                    exact he
              · exact h p hm
  | selectSong sid s now =>
      cases hu : mapGet sid st.users with
      | none => simp only [stepSt, step, hu]; exact h
      | some user =>
          cases hr : mapGet user.roomCode st.rooms with
          | none => simp only [stepSt, step, hu, hr]; exact h
          | some room =>
              simp only [stepSt, step, hu, hr]
              intro p hp
              rcases mem_mapSet_imp hp with hx | hm
              · rw [hx]
              · exact h p hm
  | disconnect sid now =>
      cases hu : mapGet sid st.users with
      | none => simp only [stepSt, step, hu]; exact h
      | some user =>
          cases hr : mapGet user.roomCode st.rooms with
          | none => simp only [stepSt, step, hu, hr]; exact h
          | some room =>
              simp only [stepSt, step, hu, hr]
              by_cases hemp : removeUser sid room.users = []
              · rw [if_pos hemp]
                intro p hp
                rcases mem_mapSet_imp ((mapDelete_sublist _ _).subset hp) with hx | hm
                · rw [hx]
                  exact h (user.roomCode, room) (mem_of_mapGet_eq_some hr)
                · exact h p hm
              · rw [if_neg hemp]
                intro p hp
                rcases mem_mapSet_imp hp with hx | hm
                · rw [hx]
                  exact h (user.roomCode, room) (mem_of_mapGet_eq_some hr)
                · exact h p hm

theorem ntNonneg_run (st : ServerState) (evs : List Event) (h : ntNonneg st)
    (he : nonnegInputs evs = true) : ntNonneg (run st evs) := by
  induction evs generalizing st with
  | nil => exact h
  | cons e rest ih =>
      simp only [nonnegInputs, List.all_cons, Bool.and_eq_true] at he
      exact ih (stepSt st e) (ntNonneg_step st e h he.1) he.2

/-- Claim C1: room-code uniqueness — after any sequence of inbound
events starting from the empty server, the codes of the simultaneously
live rooms in the registry are pairwise distinct (the registry is a
map keyed by code, so a colliding create overwrites the old room
rather than producing two live rooms with the same code). -/
theorem roomCodes_unique (evs : List Event) :
    ((run init evs).rooms.map (fun p => p.2.code)).Nodup := by
  have h := roomsOk_run init evs
    ⟨List.nodup_nil, fun p hp => absurd hp (List.not_mem_nil p)⟩
  have hmap : (run init evs).rooms.map (fun p => p.2.code)
      = (run init evs).rooms.map Prod.fst :=
    List.map_congr_left (fun p hp => h.2 p hp)
  rw [hmap]
  exact h.1

/-- Claim C2, counterexample to the claim as stated: after the event
sequence in which socket `s` joins room `A` and then room `B` without
disconnecting, room `A` still lists `s` as a member although no
session's roomCode is `A`, so the membership projection invariant
fails. -/
theorem membersMatch_counterexample :
    ¬ membersMatch (run init evDoubleJoin) := by
  decide

/-- Claim C2 (amended): after any sequence of create-room, join-room
and disconnect operations in which every create-room uses a code not
currently live and every join-room comes from a connection with no
bound session, each live room's members list is exactly the projection
of the session table onto that room's code. -/
theorem membersMatch_of_run (evs : List Event)
    (hmem : ∀ e ∈ evs, isMembershipEvent e = true)
    (hok : okEvents init evs = true) :
    membersMatch (run init evs) :=
  (inv_run init evs hmem hok inv_init).2.2.2

/-- Witness for the amended Claim C2 at a concrete create/join/join/
disconnect sequence. -/
theorem membersMatch_of_run_witness :
    (∀ e ∈ evJoinLeave, isMembershipEvent e = true) ∧
    okEvents init evJoinLeave = true ∧
    membersMatch (run init evJoinLeave) :=
  ⟨by decide, by decide, membersMatch_of_run evJoinLeave (by decide) (by decide)⟩

/-- Claim C3, counterexample to the claim as stated: for the first
join into the fresh room `AB12CD`, the `room-joined` snapshot sent to
the requester has `members = [Ann]` but `messages = []` — the system
"joined the room" message is pushed only after the snapshot is
emitted, so it is not part of the snapshot. -/
theorem joinSnapshot_counterexample :
    (joinedSnapshots joinOutA).map Room.messages = [[]] ∧
    (joinedSnapshots joinOutA).map (fun r => r.users.map User.username)
      = [[("Ann" : String)]] := by
  decide

/-- Claim C3 (amended): when a participant joins an existing room, the
`room-joined` snapshot sent to the requester contains that participant
in `members` but its `messages` field is the log from before the join
(empty for a fresh room); the system joined message is instead
delivered through a separate `new-message` broadcast to the whole
room, whose recipients include the requester. -/
theorem joinRoom_snapshot (st : ServerState) (sid roomCode username : String)
    (now : Nat) (r : Room) (hr : mapGet roomCode st.rooms = some r) :
    (step st (Event.joinRoom sid roomCode username now)).2 =
      [(Recipient.toSocket sid, OutEvent.roomJoined
          { r with users := r.users ++
              [⟨sid, username, getAvatarColor username, false⟩] }),
       (Recipient.toRoomExcept roomCode sid, OutEvent.userJoined
          ⟨sid, username, getAvatarColor username, false⟩),
       (Recipient.toRoom roomCode, OutEvent.usersUpdated
          (r.users ++ [⟨sid, username, getAvatarColor username, false⟩])),
       (Recipient.toRoom roomCode, OutEvent.newMessage
          ⟨now, "System", "#6366F1",
           "👋 " ++ username ++ " joined the room", now⟩)] ∧
    deliveredTo (stepSt st (Event.joinRoom sid roomCode username now))
      (Recipient.toRoom roomCode) sid := by
  constructor
  · simp only [step, hr]
  · simp only [stepSt, step, hr, deliveredTo]
    by_cases hc : (sid, roomCode) ∈ st.channels
    · rw [if_pos hc]
      exact hc
    · rw [if_neg hc]
      exact List.mem_append.mpr (Or.inr (List.mem_singleton.mpr rfl))

/-- Witness for the amended Claim C3: Scenario A's first join. -/
theorem joinRoom_snapshot_witness :
    mapGet ("AB12CD") stFresh.rooms = some roomFresh ∧
    deliveredTo (stepSt stFresh (Event.joinRoom ("s") ("AB12CD") ("Ann") 5))
      (Recipient.toRoom ("AB12CD")) ("s") :=
  ⟨by decide,
   (joinRoom_snapshot stFresh ("s") ("AB12CD") ("Ann") 5 roomFresh (by decide)).2⟩

/-- Claim C4: for every room state and every song, `select-song` sets
`currentSong` to the selected song, forces `isPlaying` to false and
resets `currentTime` to 0 in the same step, and repeating the same
selection yields the same playback fields again (idempotence). -/
theorem selectSong_resets (st : ServerState) (sid : String) (sess : Session)
    (r : Room) (s : Song) (now now2 : Nat)
    (hs : mapGet sid st.users = some sess)
    (hr : mapGet sess.roomCode st.rooms = some r) :
    (mapGet sess.roomCode (stepSt st (Event.selectSong sid s now)).rooms).map
        playback = some (some s, false, 0) ∧
    (mapGet sess.roomCode (stepSt (stepSt st (Event.selectSong sid s now))
        (Event.selectSong sid s now2)).rooms).map playback
      = some (some s, false, 0) := by
  have main : ∀ (st' : ServerState) (r' : Room),
      mapGet sid st'.users = some sess →
      mapGet sess.roomCode st'.rooms = some r' → ∀ n,
      (mapGet sess.roomCode (stepSt st' (Event.selectSong sid s n)).rooms).map
          playback = some (some s, false, 0) := by
    intro st' r' hs' hr' n
    simp only [stepSt, step, hs', hr', mapGet_mapSet_self]
    rfl
  refine ⟨main st r hs hr now, ?_⟩
  have hs1 : mapGet sid (stepSt st (Event.selectSong sid s now)).users = some sess := by
    simp only [stepSt, step, hs, hr]
  have h1 := main st r hs hr now
  cases hq : mapGet sess.roomCode (stepSt st (Event.selectSong sid s now)).rooms with
  | none => rw [hq] at h1; simp at h1
  | some r1 => exact main _ r1 hs1 hq now2

/-- Witness for Claim C4 at a concrete joined room. -/
theorem selectSong_resets_witness :
    mapGet ("s1") stA.users = some sessA ∧
    mapGet (sessA.roomCode) stA.rooms = some roomA ∧
    (mapGet (sessA.roomCode) (stepSt stA (Event.selectSong ("s1") songX 9)).rooms).map
        playback = some (some songX, false, 0) :=
  ⟨by decide, by decide,
   (selectSong_resets stA ("s1") sessA roomA songX 9 10 (by decide) (by decide)).1⟩

/-- Claim C5, counterexample to the claim as stated: a joined client
sending `music-control` with `currentTime = -5` drives the room's
playhead negative — the handler performs no validation, so the
non-negativity invariant fails for client-supplied negative values. -/
theorem currentTime_nonneg_counterexample :
    ¬ ntNonneg (run init evNegTime) ∧
    (mapGet ("R") (run init evNegTime).rooms).map Room.currentTime
      = some (-5) := by
  decide

/-- Claim C5 (amended): `create-room` and `select-song` always write
`currentTime = 0`, and `music-control` stores the supplied value
unchanged, so the playhead of every live room stays non-negative along
any event sequence whose `music-control` events all supply a
non-negative (or absent) `currentTime`. -/
theorem currentTime_nonneg (evs : List Event) (h : nonnegInputs evs = true) :
    ntNonneg (run init evs) :=
  ntNonneg_run init evs (fun p hp => absurd hp (List.not_mem_nil p)) h

/-- Witness for the amended Claim C5. -/
theorem currentTime_nonneg_witness :
    nonnegInputs evNonneg = true ∧ ntNonneg (run init evNonneg) :=
  ⟨by decide, currentTime_nonneg evNonneg (by decide)⟩

/-- Claim C6: for every joined sender and every supplied pair
`(isPlaying, currentTime)`, the music-control handler stores exactly
the supplied values in the room — no legality check and no alteration
(the `|| 0` fallback only fires for absent or zero values and is the
identity on every supplied number). -/
theorem musicControl_writethrough (st : ServerState) (sid : String)
    (sess : Session) (r : Room) (b : Bool) (t : Int) (now : Nat)
    (hs : mapGet sid st.users = some sess)
    (hr : mapGet sess.roomCode st.rooms = some r) :
    (mapGet sess.roomCode
        (stepSt st (Event.musicControl sid b (some t) now)).rooms).map
      (fun r' => (r'.isPlaying, r'.currentTime)) = some (b, t) := by
  simp only [stepSt, step, hs, hr, mapGet_mapSet_self]
  rw [show orZero (some t) = t from orZero_some t]
  rfl

/-- Witness for Claim C6 with a concrete supplied pair. -/
theorem musicControl_writethrough_witness :
    mapGet ("s1") stA.users = some sessA ∧
    mapGet (sessA.roomCode) stA.rooms = some roomA ∧
    (mapGet (sessA.roomCode)
        (stepSt stA (Event.musicControl ("s1") true (some 5) 3)).rooms).map
      (fun r' => (r'.isPlaying, r'.currentTime)) = some (true, 5) :=
  ⟨by decide, by decide,
   musicControl_writethrough stA ("s1") sessA roomA true 5 3 (by decide) (by decide)⟩

/-- Claim C7: a join-room whose code matches no live room sends a
`room-error` to the requester alone and has no other effect — the
whole server state is returned unchanged and the single emission is
addressed only to the requesting socket. -/
theorem joinRoom_notFound (st : ServerState) (sid roomCode username : String)
    (now : Nat) (h : mapGet roomCode st.rooms = none) :
    step st (Event.joinRoom sid roomCode username now)
      = (st, [(Recipient.toSocket sid, OutEvent.roomError ("Room not found"))]) ∧
    ∀ x, deliveredTo st (Recipient.toSocket sid) x → x = sid := by
  constructor
  · simp only [step, h]
  · intro x hx
    exact hx

/-- Witness for Claim C7 on the empty server. -/
theorem joinRoom_notFound_witness :
    mapGet ("ZZ") init.rooms = none ∧
    step init (Event.joinRoom ("s") ("ZZ") ("Ann") 1)
      = (init, [(Recipient.toSocket ("s"), OutEvent.roomError ("Room not found"))]) :=
  ⟨by decide, (joinRoom_notFound init ("s") ("ZZ") ("Ann") 1 (by decide)).1⟩

/-- Claim C8: every room-scoped event (send-message, typing, add-song,
music-control, select-song) from a connection with no bound session is
silently dropped — the state is unchanged and nothing is emitted. -/
theorem orphan_noop (st : ServerState) (sid text : String) (b : Bool)
    (d : SongData) (t : Option Int) (s : Song) (now : Nat)
    (h : mapGet sid st.users = none) :
    step st (Event.sendMessage sid text now) = (st, []) ∧
    step st (Event.typing sid b) = (st, []) ∧
    step st (Event.addSong sid d now) = (st, []) ∧
    step st (Event.musicControl sid b t now) = (st, []) ∧
    step st (Event.selectSong sid s now) = (st, []) := by
  refine ⟨?_, ?_, ?_, ?_, ?_⟩ <;> simp only [step, h]

/-- Witness for Claim C8 with a socket that never joined. -/
theorem orphan_noop_witness :
    mapGet ("ghost") init.users = none ∧
    step init (Event.sendMessage ("ghost") ("hi") 1) = (init, []) ∧
    step init (Event.musicControl ("ghost") true (some 4) 1) = (init, []) :=
  ⟨by decide,
   (orphan_noop init ("ghost") ("hi") true ⟨none, "T", none, none, "u"⟩
      (some 4) songX 1 (by decide)).1,
   (orphan_noop init ("ghost") ("hi") true ⟨none, "T", none, none, "u"⟩
      (some 4) songX 1 (by decide)).2.2.2.1⟩

/-- Claim C9: for a music-control event from a joined sender whose
room's channel membership matches the room's member list, the single
`music-sync` emission is addressed to the room excluding the sender:
the sender never receives it and exactly the other members do. -/
theorem musicSync_exclusion (st : ServerState) (sid : String) (sess : Session)
    (r : Room) (b : Bool) (t : Option Int) (now : Nat)
    (hs : mapGet sid st.users = some sess)
    (hr : mapGet sess.roomCode st.rooms = some r)
    (hc1 : ∀ p ∈ st.channels, p.2 = sess.roomCode → ∃ u ∈ r.users, u.id = p.1)
    (hc2 : ∀ u ∈ r.users, (u.id, sess.roomCode) ∈ st.channels) :
    (step st (Event.musicControl sid b t now)).2
      = [(Recipient.toRoomExcept sess.roomCode sid,
          OutEvent.musicSync b (orZero t) now)] ∧
    ¬ deliveredTo (stepSt st (Event.musicControl sid b t now))
        (Recipient.toRoomExcept sess.roomCode sid) sid ∧
    ∀ x, deliveredTo (stepSt st (Event.musicControl sid b t now))
        (Recipient.toRoomExcept sess.roomCode sid) x
      ↔ ((∃ u ∈ r.users, u.id = x) ∧ x ≠ sid) := by
  have hch : (stepSt st (Event.musicControl sid b t now)).channels
      = st.channels := by
    simp only [stepSt, step, hs, hr]
  refine ⟨?_, ?_, ?_⟩
  · simp only [step, hs, hr]
  · intro hcontra
    exact hcontra.2 rfl
  · intro x
    constructor
    · rintro ⟨hmem, hne⟩
      rw [hch] at hmem
      exact ⟨hc1 (x, sess.roomCode) hmem rfl, hne⟩
    · rintro ⟨⟨u, hu, hux⟩, hne⟩
      refine ⟨?_, hne⟩
      rw [hch]
      exact hux ▸ hc2 u hu

/-- Witness for Claim C9 in a two-member room with sender `s1`. -/
theorem musicSync_exclusion_witness :
    mapGet ("s1") stAB.users = some sessAB ∧
    mapGet (sessAB.roomCode) stAB.rooms = some roomAB ∧
    (∀ p ∈ stAB.channels, p.2 = sessAB.roomCode →
      ∃ u ∈ roomAB.users, u.id = p.1) ∧
    (∀ u ∈ roomAB.users, (u.id, sessAB.roomCode) ∈ stAB.channels) ∧
    (step stAB (Event.musicControl ("s1") true (some 3) 7)).2
      = [(Recipient.toRoomExcept (sessAB.roomCode) ("s1"),
          OutEvent.musicSync true (orZero (some 3)) 7)] :=
  ⟨by decide, by decide, by decide, by decide,
   (musicSync_exclusion stAB ("s1") sessAB roomAB true (some 3) 7
      (by decide) (by decide) (by decide) (by decide)).1⟩

/-- Claim C10: select-song never checks the selected song against the
playlist — for a joined sender and any song not occurring in the
room's playlist, the handler still sets `currentSong` to that song
while leaving the playlist unchanged. -/
theorem selectSong_no_playlist_check (st : ServerState) (sid : String)
    (sess : Session) (r : Room) (s : Song) (now : Nat)
    (hs : mapGet sid st.users = some sess)
    (hr : mapGet sess.roomCode st.rooms = some r)
    (hnotin : s ∉ r.playlist) :
    (mapGet sess.roomCode (stepSt st (Event.selectSong sid s now)).rooms).map
        Room.currentSong = some (some s) ∧
    (mapGet sess.roomCode (stepSt st (Event.selectSong sid s now)).rooms).map
        Room.playlist = some r.playlist := by
  simp only [stepSt, step, hs, hr, mapGet_mapSet_self]
  exact ⟨rfl, rfl⟩

/-- Witness for Claim C10 with a song absent from the playlist. -/
theorem selectSong_no_playlist_check_witness :
    mapGet ("s1") stA.users = some sessA ∧
    mapGet (sessA.roomCode) stA.rooms = some roomA ∧
    songX ∉ roomA.playlist ∧
    (mapGet (sessA.roomCode) (stepSt stA (Event.selectSong ("s1") songX 9)).rooms).map
        Room.currentSong = some (some songX) :=
  ⟨by decide, by decide, by decide,
   (selectSong_no_playlist_check stA ("s1") sessA roomA songX 9
      (by decide) (by decide) (by decide)).1⟩

end MusicSync
